import Mathlib

/-!
Verification development for the miniq demo storefront (src/app.py and
src/miniq.py).  The Python program is shallowly embedded: Python dicts
become insertion-ordered association lists, fallible operations return
`Except PyErr`, route handlers become explicit state-passing functions,
`Decimal` arithmetic on exact minor-unit amounts becomes `ℚ`, and the
relevant parts of the standard library (`urllib.parse.urlparse`,
`int(str)`, list slicing, stable sorting) are modelled as executable
Lean functions following the CPython 3.11 implementation.
-/

namespace MiniqApp

/-- Python exception kinds that the embedded code can raise.
`keyError` is the spec's NotFound kind (unknown identifier lookup),
`valueError` is the spec's InvalidArgument kind (malformed key / limit),
`httpError` is the spec's RemoteError kind (`raise_for_status`),
`unmodelled` marks inputs outside the scope of the embedding (bracketed
IPv6 hosts and non-ASCII netlocs in `urlparse`, which CPython validates
with `ipaddress` / `unicodedata` machinery not reproduced here). -/
inductive PyErr where
  | keyError (key : String)
  | valueError (msg : String)
  | typeError (msg : String)
  | httpError (status : Nat)
  | unmodelled (what : String)
  deriving Repr, DecidableEq

/-! ## Python dict model

A Python dict is insertion ordered.  `d[k] = v` replaces the value in
place when the key is present and appends otherwise; `d[k]` reads the
(first, and in practice only) binding; `d.get(k, v0)` defaults. -/

/-- Model of `d[k]` as an `Option`: the first binding of key `k`. -/
def dget? {α : Type} : List (String × α) → String → Option α
  | [], _ => none
  | (k, v) :: d, key => if k = key then some v else dget? d key

/-- Model of `d.get(k, v0)`. -/
def dgetD {α : Type} (d : List (String × α)) (key : String) (v0 : α) : α :=
  (dget? d key).getD v0

/-- Model of `d[k] = v`: replace in place if present, append otherwise. -/
def dset {α : Type} : List (String × α) → String → α → List (String × α)
  | [], key, v => [(key, v)]
  | (k, w) :: d, key, v =>
      if k = key then (k, v) :: d else (k, w) :: dset d key v

/-- Model of `d.keys()` in iteration (= insertion) order. -/
def dkeys {α : Type} (d : List (String × α)) : List String :=
  d.map Prod.fst

/-! ## Decimal arithmetic and `round_up` (src/app.py lines 14-19)

The generated amounts are exact multiples of 1/100, so `Decimal`
arithmetic on them is exact and embeds into `ℚ`.  `Decimal.__floordiv__`
truncates the true quotient toward zero and `Decimal.__mod__` returns
`x - n * (x // n)` (remainder carrying the sign of the dividend). -/

/-- Model of `Decimal` truncation toward zero of a rational. -/
def decTrunc (q : ℚ) : ℤ :=
  if 0 ≤ q then ⌊q⌋ else ⌈q⌉

/-- Model of `x // n` on `Decimal`s. -/
def decFloorDiv (x n : ℚ) : ℤ :=
  decTrunc (x / n)

/-- Model of `x % n` on `Decimal`s. -/
def decMod (x n : ℚ) : ℚ :=
  x - n * (decFloorDiv x n : ℚ)

/-- Model of `round_up(x, n) = (x // n + int(x % n != 0)) * n`, from src/app.py. -/
def round_up (x n : ℚ) : ℚ :=
  ((decFloorDiv x n : ℚ) + (if decMod x n ≠ 0 then 1 else 0)) * n

/-! ## Catalog data model (src/app.py lines 27-41) -/

/-- A generated product: `{'sku': key, 'title': ..., 'description': ...,
'price': Money(...)}`.  The `Money` amount is the rational produced by
`round_up(Decimal(randint(5000, 250000)) / 100, 5)`; the currency is the
fixed `Currency.DKK` and is left implicit. -/
structure Product where
  sku : String
  title : String
  description : String
  price : ℚ
  deriving Repr, DecidableEq

/-- The mutable module-level state of src/app.py: the `inventory`,
`products` and `viewings` dicts.  (`reservations` is never read or
written and is omitted.)  View counts are Python ints, embedded as `ℤ`. -/
structure AppState where
  inventory : List (String × Nat)
  products : List (String × Product)
  viewings : List (String × ℤ)
  deriving Repr, DecidableEq

/-- Current view count of `sku`: `viewings.get(sku, 0)`. -/
def views (s : AppState) (sku : String) : ℤ :=
  dgetD s.viewings sku 0

/-- The derived aggregate returned by `get_product_details`. -/
structure ProductDetails where
  product : Product
  inventory : Nat
  url : String
  views : ℤ
  deriving Repr, DecidableEq

/-- Model of `url_for('view_product_details', sku=sku)` for the Flask route
`/products/<string:sku>`. -/
def url_for_view_product_details (sku : String) : String :=
  "/products/" ++ sku

/-- Model of `get_product_details` (src/app.py lines 57-63).  Python evaluates the
dict literal's values in order, so `products[sku]` raises before
`inventory[sku]` is read; `viewings.get(sku, 0)` never raises. -/
def get_product_details (s : AppState) (sku : String) : Except PyErr ProductDetails :=
  match dget? s.products sku with
  | none => .error (.keyError sku)
  | some p =>
      match dget? s.inventory sku with
      | none => .error (.keyError sku)
      | some inv =>
          .ok { product := p
                inventory := inv
                url := url_for_view_product_details sku
                views := dgetD s.viewings sku 0 }

/-! ## `get_popular_products` (src/app.py lines 44-54) -/

/-- The list comprehension
`[get_product_details(sku) for sku, product in products.items() if inventory[sku] > 0]`:
left to right over the insertion order of `products`, the guard
`inventory[sku] > 0` is evaluated first (and can raise `KeyError`), then
the element expression. -/
def inStockDetails (s : AppState) :
    List (String × Product) → Except PyErr (List ProductDetails)
  | [] => .ok []
  | (sku, _) :: rest =>
      match dget? s.inventory sku with
      | none => .error (.keyError sku)
      | some inv =>
          if 0 < inv then
            match get_product_details s sku with
            | .error e => .error e
            | .ok d => (inStockDetails s rest).map (fun l => d :: l)
          else
            inStockDetails s rest

/-- Insert `d` into a list already sorted by non-increasing `views`,
before the first element whose view count does not exceed `d`'s.  Used
to model Python's stable `sorted(..., key=..., reverse=True)`. -/
def insertDesc (d : ProductDetails) : List ProductDetails → List ProductDetails
  | [] => [d]
  | e :: rest =>
      if e.views ≤ d.views then d :: e :: rest else e :: insertDesc d rest

/-- Model of `sorted(l, key=lambda pd: pd['views'], reverse=True)`.  Python's sort
is stable, and with `reverse=True` elements with equal keys keep their
original relative order; any stable non-increasing sort computes the
same list, so a stable insertion sort is used. -/
def pySortedByViewsDesc : List ProductDetails → List ProductDetails
  | [] => []
  | d :: rest => insertDesc d (pySortedByViewsDesc rest)

/-- Python list slicing `l[0:stop]`: a non-negative `stop` keeps the
first `stop` elements; a negative `stop` counts from the end, keeping
the first `max(len(l) + stop, 0)` elements. -/
def pySliceTo {α : Type} (l : List α) (stop : ℤ) : List α :=
  if 0 ≤ stop then l.take stop.toNat
  else l.take ((l.length : ℤ) + stop).toNat

/-- Model of `get_popular_products(limit)` (src/app.py lines 44-54). -/
def get_popular_products (s : AppState) (limit : ℤ) : Except PyErr (List ProductDetails) :=
  (inStockDetails s s.products).map (fun l => pySliceTo (pySortedByViewsDesc l) limit)

/-! ## `int(str)` — CPython string-to-int conversion, ASCII fragment

Used by `/api/popular-products` for the `limit` query parameter and by
`Miniq.create_job` for the job key.  The model covers ASCII input:
surrounding ASCII whitespace is stripped, then an optional single sign
precedes a nonempty digit string in which a single underscore may occur
between two digits.  (CPython additionally accepts non-ASCII decimal
digits and whitespace, which no caller in this repository produces.) -/

/-- ASCII whitespace stripped by `int(str)`. -/
def isPySpace (c : Char) : Bool :=
  c = ' ' ∨ c = '\t' ∨ c = '\n' ∨ c = '\x0d' ∨ c = '\x0b' ∨ c = '\x0c'

/-- ASCII decimal digit. -/
def isPyDigit (c : Char) : Bool :=
  '0' ≤ c ∧ c ≤ '9'

/-- Digit-string tail: digits, with `_` allowed only between digits. -/
def digitsCore : Nat → List Char → Option Nat
  | acc, [] => some acc
  | _, '_' :: [] => none
  | acc, '_' :: d :: cs =>
      if isPyDigit d then digitsCore (acc * 10 + (d.toNat - 48)) cs else none
  | acc, c :: cs =>
      if isPyDigit c then digitsCore (acc * 10 + (c.toNat - 48)) cs else none

/-- Nonempty digit string; an underscore may not lead. -/
def pyIntDigits : List Char → Option Nat
  | [] => none
  | c :: cs => if isPyDigit c then digitsCore (c.toNat - 48) cs else none

/-- Strip surrounding whitespace. -/
def pyStrip (l : List Char) : List Char :=
  ((l.dropWhile isPySpace).reverse.dropWhile isPySpace).reverse

/-- Model of `int(s)` for a string `s`: `some` the value, or `none` when CPython
raises `ValueError`. -/
def pyIntOfString (str : String) : Option ℤ :=
  match pyStrip str.toList with
  | '+' :: rest => (pyIntDigits rest).map (fun n => (n : ℤ))
  | '-' :: rest => (pyIntDigits rest).map (fun n => -(n : ℤ))
  | l => (pyIntDigits l).map (fun n => (n : ℤ))

/-! ## Route handlers (src/app.py lines 66-96)

Each Flask handler becomes a function from the pre-request state to the
post-request state paired with the response (the rendered template is
identified with the data passed to it; serialization is out of scope). -/

/-- Model of `view_product_details` (HTML detail route, src/app.py lines 78-81):
increments `viewings[sku]` first, then computes the details — so the
increment persists even when the subsequent lookup raises. -/
def view_product_details (s : AppState) (sku : String) :
    AppState × Except PyErr ProductDetails :=
  let s2 : AppState :=
    { s with viewings := dset s.viewings sku (dgetD s.viewings sku 0 + 1) }
  (s2, get_product_details s2 sku)

/-- Model of `api_product_details` (JSON detail route, src/app.py lines 84-86):
computes the details without touching `viewings`. -/
def api_product_details (s : AppState) (sku : String) :
    AppState × Except PyErr ProductDetails :=
  (s, get_product_details s sku)

/-- Model of `view_home` (src/app.py lines 66-69). -/
def view_home (s : AppState) : AppState × Except PyErr (List ProductDetails) :=
  (s, get_popular_products s 10)

/-- Model of `api_popular_products` (src/app.py lines 72-75):
`limit = int(request.args.get('limit', 10))` — a missing parameter
defaults to the int 10, a present parameter is parsed with `int` and a
parse failure raises `ValueError` before `get_popular_products` runs. -/
def api_popular_products (s : AppState) (limitArg : Option String) :
    AppState × Except PyErr (List ProductDetails) :=
  (s,
    match limitArg with
    | none => get_popular_products s 10
    | some t =>
        match pyIntOfString t with
        | none => .error (.valueError t)
        | some l => get_popular_products s l)

/-- Model of `api_inventory` (src/app.py lines 89-91). -/
def api_inventory (s : AppState) : AppState × Except PyErr (List (String × Nat)) :=
  (s, .ok s.inventory)

/-- Model of `api_inventory_sku` (src/app.py lines 94-96): `inventory[sku]`
raises `KeyError` for an unknown identifier. -/
def api_inventory_sku (s : AppState) (sku : String) : AppState × Except PyErr Nat :=
  (s,
    match dget? s.inventory sku with
    | none => .error (.keyError sku)
    | some c => .ok c)

/-! ## Exposed operations and process lifetime -/

/-- One incoming request to any of the app's routes. -/
inductive Op where
  | opHome
  | opApiPopularProducts (limitArg : Option String)
  | opViewProductDetails (sku : String)
  | opApiProductDetails (sku : String)
  | opApiInventory
  | opApiInventorySku (sku : String)
  deriving Repr, DecidableEq

/-- The state after handling one request. -/
def step (s : AppState) : Op → AppState
  | .opHome => (view_home s).1
  | .opApiPopularProducts a => (api_popular_products s a).1
  | .opViewProductDetails sku => (view_product_details s sku).1
  | .opApiProductDetails sku => (api_product_details s sku).1
  | .opApiInventory => (api_inventory s).1
  | .opApiInventorySku sku => (api_inventory_sku s sku).1

/-- The state after handling a sequence of requests. -/
def run (s : AppState) : List Op → AppState
  | [] => s
  | op :: ops => run (step s op) ops

/-! ## Startup generation (src/app.py lines 27-40)

The random draws are parameters of the model: `draws` is the sequence of
`(str(uuid4()), randint(0, 10))` pairs of the `inventory` comprehension,
and `attrs` supplies each key's `(faker.name(), faker.sentence(),
randint(5000, 250000))` draws for the `products` comprehension. -/

/-- Model of `inventory = {str(uuid4()): randint(0, 10) for _ in range(100)}` —
a dict comprehension is a sequence of insertions into a fresh dict. -/
def init_inventory (draws : List (String × Nat)) : List (String × Nat) :=
  draws.foldl (fun d kv => dset d kv.1 kv.2) []

/-- One generated product record (src/app.py lines 32-37), with
`price = Money(round_up(Decimal(minor) / 100, 5), Currency.DKK)`. -/
def mkProduct (key title descr : String) (minor : ℤ) : Product :=
  { sku := key
    title := title
    description := descr
    price := round_up ((minor : ℚ) / 100) 5 }

/-- Model of `products = {key: {...} for key in inventory.keys()}` — the keys of
`inventory` are already distinct, so the comprehension is a map over
them in order. -/
def init_products (inv : List (String × Nat))
    (attrs : String → String × String × ℤ) : List (String × Product) :=
  inv.map (fun kv =>
    (kv.1, mkProduct kv.1 (attrs kv.1).1 (attrs kv.1).2.1 (attrs kv.1).2.2))

/-- The module-level state right after import: generated `inventory` and
`products`, empty `viewings`. -/
def initState (draws : List (String × Nat))
    (attrs : String → String × String × ℤ) : AppState :=
  let inv := init_inventory draws
  { inventory := inv, products := init_products inv attrs, viewings := [] }

/-! ## `urllib.parse.urlparse` — CPython 3.11 model

`Miniq.__init__` normalizes its configured hostname with `urlparse`.
The model follows `Lib/urllib/parse.py`: leading C0-control/space
characters are stripped, all tabs, carriage returns and newlines are
removed, then the scheme, netloc, fragment, query and params are split
off in that order.  Two validation steps CPython performs with library
machinery outside this embedding — `_check_bracketed_host` (IPv6 /
IPvFuture address parsing) and the non-ASCII branch of `_checknetloc`
(NFKC normalization) — are mapped to the distinguished `unmodelled`
error; no hostname this repository uses reaches them. -/

/-- C0 control characters and space (`_WHATWG_C0_CONTROL_OR_SPACE`). -/
def c0ControlOrSpace (c : Char) : Bool :=
  c.toNat ≤ 32

/-- Model of `_UNSAFE_URL_BYTES_TO_REMOVE`: tab, carriage return, newline. -/
def unsafeUrlByte (c : Char) : Bool :=
  c = '\t' ∨ c = '\x0d' ∨ c = '\n'

/-- Model of `scheme_chars`: ASCII letters, digits, `+`, `-`, `.`. -/
def schemeChar (c : Char) : Bool :=
  ('a' ≤ c ∧ c ≤ 'z') ∨ ('A' ≤ c ∧ c ≤ 'Z') ∨ ('0' ≤ c ∧ c ≤ '9') ∨
    c = '+' ∨ c = '-' ∨ c = '.'

/-- ASCII letter (the `url[0].isascii() and url[0].isalpha()` guard). -/
def isAsciiAlpha (c : Char) : Bool :=
  ('a' ≤ c ∧ c ≤ 'z') ∨ ('A' ≤ c ∧ c ≤ 'Z')

/-- ASCII character (`str.isascii`). -/
def isAsciiChar (c : Char) : Bool :=
  c.toNat < 128

/-- ASCII lowercasing (`str.lower` restricted to `scheme_chars`). -/
def lowerAscii (c : Char) : Char :=
  if 'A' ≤ c ∧ c ≤ 'Z' then Char.ofNat (c.toNat + 32) else c

/-- Split `before, after` at the first occurrence of `sep` (`str.split`
with `maxsplit=1`; `(l, [])` when `sep` is absent, matching the guarded
uses in `urlsplit`). -/
def splitOnFirst (sep : Char) (l : List Char) : List Char × List Char :=
  match l.findIdx? (fun c => c = sep) with
  | none => (l, [])
  | some i => (l.take i, l.drop (i + 1))

/-- The scheme split of `urlsplit`: at the first `:`, provided it is not
leading, the first character is an ASCII letter and everything before
the colon is a scheme character; the scheme is lowercased. -/
def splitScheme (url : List Char) : List Char × List Char :=
  match url.findIdx? (fun c => c = ':') with
  | none => ([], url)
  | some i =>
      if 0 < i ∧ (url.take i).all schemeChar ∧
          (match url.head? with | some c => isAsciiAlpha c | none => false) = true then
        ((url.take i).map lowerAscii, url.drop (i + 1))
      else
        ([], url)

/-- Model of `_splitnetloc(url, 2)` after the leading `//` has been dropped: the
netloc runs to the first `/`, `?` or `#`. -/
def netlocDelim (c : Char) : Bool :=
  c = '/' ∨ c = '?' ∨ c = '#'

/-- Model of `urlsplit` result. -/
structure SplitResult where
  scheme : String
  netloc : String
  path : String
  query : String
  fragment : String
  deriving Repr, DecidableEq

/-- The input cleanup `urlsplit` performs first: strip leading
C0-control/space characters, remove every tab, carriage return and
newline. -/
def stripUnsafe (url : String) : List Char :=
  (url.toList.dropWhile c0ControlOrSpace).filter (fun c => ¬ unsafeUrlByte c)

/-- The netloc split: when the remaining url starts with `//`, the
netloc is everything from there to the first `/`, `?` or `#`
(`_splitnetloc(url, 2)`); otherwise there is no netloc. -/
def splitNetlocStep (u : List Char) : List Char × List Char :=
  if u.take 2 = ['/', '/'] then
    ((u.drop 2).takeWhile (fun c => ¬ netlocDelim c),
      (u.drop 2).dropWhile (fun c => ¬ netlocDelim c))
  else ([], u)

/-- Model of `urllib.parse.urlsplit(url)` (CPython 3.11), with `allow_fragments`
true and the default empty scheme. -/
def pyUrlsplit (url : String) : Except PyErr SplitResult :=
  let u0 := stripUnsafe url
  let sp := splitScheme u0
  let np := splitNetlocStep sp.2
  let netloc := np.1
  if ('[' ∈ netloc ∧ ']' ∉ netloc) ∨ (']' ∈ netloc ∧ '[' ∉ netloc) then
    .error (.valueError "Invalid IPv6 URL")
  else if '[' ∈ netloc ∧ ']' ∈ netloc then
    .error (.unmodelled "bracketed host validation")
  else if ¬ netloc.all isAsciiChar then
    .error (.unmodelled "non-ascii netloc validation")
  else
    let fs := splitOnFirst '#' np.2
    let qs := splitOnFirst '?' fs.1
    .ok { scheme := String.mk sp.1
          netloc := String.mk netloc
          path := String.mk qs.1
          query := String.mk qs.2
          fragment := String.mk fs.2 }

/-- The schemes for which `urlparse` separates path parameters
(`uses_params`, with the empty scheme included). -/
def usesParams : List String :=
  ["", "ftp", "hdl", "prospero", "http", "imap", "https", "shttp", "rtsp",
    "rtsps", "rtspu", "sip", "sips", "mms", "sftp", "tel"]

/-- Index of the last occurrence of `c` (guarded by membership at the
call site, like `str.rfind`). -/
def lastIdxOf (c : Char) (l : List Char) : Nat :=
  match l.reverse.findIdx? (fun x => x = c) with
  | none => 0
  | some k => l.length - 1 - k

/-- Model of `str.find(ch, start)` as an `Option` index. -/
def findIdxFrom (ch : Char) (l : List Char) (start : Nat) : Option Nat :=
  match (l.drop start).findIdx? (fun x => x = ch) with
  | none => none
  | some k => some (start + k)

/-- Model of `_splitparams(url)`: when the path contains a `/`, only a `;` at or
after the last `/` separates the params. -/
def splitParams (url : List Char) : List Char × List Char :=
  if '/' ∈ url then
    match findIdxFrom ';' url (lastIdxOf '/' url) with
    | none => (url, [])
    | some i => (url.take i, url.drop (i + 1))
  else
    splitOnFirst ';' url

/-- Model of `urlparse` result. -/
structure ParseResult where
  scheme : String
  netloc : String
  path : String
  params : String
  query : String
  fragment : String
  deriving Repr, DecidableEq

/-- The params-splitting pass `urlparse` applies on top of `urlsplit`. -/
def paramsSplitOfSplit (r : SplitResult) : ParseResult :=
  if r.scheme ∈ usesParams ∧ ';' ∈ r.path.toList then
    let pp := splitParams r.path.toList
    { scheme := r.scheme, netloc := r.netloc, path := String.mk pp.1
      params := String.mk pp.2, query := r.query, fragment := r.fragment }
  else
    { scheme := r.scheme, netloc := r.netloc, path := r.path
      params := "", query := r.query, fragment := r.fragment }

/-- Model of `urllib.parse.urlparse(url)` (CPython 3.11). -/
def pyUrlparse (url : String) : Except PyErr ParseResult :=
  (pyUrlsplit url).map paramsSplitOfSplit

/-! ## The Miniq queue client (src/miniq.py) -/

/-- A constructed client: just its normalized base URI. -/
structure Miniq where
  uri : String
  deriving Repr, DecidableEq

/-- The base-URI normalization of `Miniq.__init__`: when both the
scheme and the netloc of the parse are nonempty (Python truthiness) the
base URI is `scheme + '://' + netloc`, otherwise it is `'http://' +
path` — the path component of the parse, not necessarily the whole
input. -/
def baseUriOfParse (u : ParseResult) : Miniq :=
  if u.scheme ≠ "" ∧ u.netloc ≠ "" then { uri := u.scheme ++ "://" ++ u.netloc }
  else { uri := "http://" ++ u.path }

/-- Model of `Miniq.__init__` (src/miniq.py lines 7-13). -/
def Miniq.init (hostname : String) : Except PyErr Miniq :=
  (pyUrlparse hostname).map baseUriOfParse

/-- A JSON value (response bodies). -/
inductive Json where
  | null
  | bool (b : Bool)
  | str (s : String)
  | num (n : ℤ)
  | arr (elems : List Json)
  | obj (fields : List (String × Json))
  deriving Repr

/-- Model of `j['data']`-style subscription: `KeyError` on a missing field,
`TypeError` on a non-object. -/
def Json.getItem (j : Json) (key : String) : Except PyErr Json :=
  match j with
  | .obj fields =>
      match dget? fields key with
      | some v => .ok v
      | none => .error (.keyError key)
  | _ => .error (.typeError "not subscriptable")

/-- An HTTP request issued through `requests`. -/
structure Request where
  method : String
  url : String
  body : String
  deriving Repr, DecidableEq

/-- The remote service's answer, as the client observes it: the status
code and the result of `response.json()` (decoding happens outside the
model, so the decoded value or decode error is supplied directly). -/
structure HttpResponse where
  status : Nat
  jsonBody : Except PyErr Json

/-- Model of `response.raise_for_status()`: 4xx and 5xx statuses raise. -/
def raise_for_status (r : HttpResponse) : Except PyErr Unit :=
  if 400 ≤ r.status ∧ r.status < 600 then .error (.httpError r.status)
  else .ok ()

/-- Model of `Miniq.create_job` (src/miniq.py lines 15-18), with the network as
an oracle `net`.  The returned list records every request actually
issued: `int(key)` is evaluated while building the URL argument, so a
non-integer key raises `ValueError` before `requests.post` runs and the
list stays empty. -/
def Miniq.create_job (m : Miniq) (net : Request → HttpResponse)
    (key : String) (data : String) : List Request × Except PyErr Json :=
  match pyIntOfString key with
  | none => ([], .error (.valueError key))
  | some k =>
      let req : Request := { method := "POST", url := m.uri ++ "/" ++ toString k, body := data }
      let resp := net req
      match raise_for_status resp with
      | .error e => ([req], .error e)
      | .ok _ =>
          match resp.jsonBody with
          | .error e => ([req], .error e)
          | .ok j => ([req], j.getItem "data")

/-! ## Well-formedness, plain hosts, and concrete fixtures -/

/-- Decidable equality of `Except` results, for concrete evaluation. -/
def exceptDecEq {ε α : Type} [DecidableEq ε] [DecidableEq α] :
    (a b : Except ε α) → Decidable (a = b)
  | .error x, .error y =>
      if h : x = y then .isTrue (by rw [h]) else .isFalse (by simp [h])
  | .error _, .ok _ => .isFalse (by simp)
  | .ok _, .error _ => .isFalse (by simp)
  | .ok x, .ok y =>
      if h : x = y then .isTrue (by rw [h]) else .isFalse (by simp [h])

instance {ε α : Type} [DecidableEq ε] [DecidableEq α] : DecidableEq (Except ε α) :=
  exceptDecEq

/-- The catalog well-formedness every reachable state satisfies: the key
sequences of `products` and `inventory` agree, and each product record
carries its own key as `sku`.  Both hold of `initState` and are
preserved by every route (no route writes `products` or `inventory`). -/
def WF (s : AppState) : Prop :=
  dkeys s.products = dkeys s.inventory ∧ ∀ kp ∈ s.products, kp.2.sku = kp.1

instance (s : AppState) : Decidable (WF s) := by
  unfold WF; infer_instance

/-- The in-stock filter the comprehension applies to a `products` entry. -/
def inStockP (s : AppState) (kp : String × Product) : Bool :=
  match dget? s.inventory kp.1 with
  | some n => decide (0 < n)
  | none => false

/-- Characters of a "plain host" string: printable ASCII other than the
delimiters `:`, `/`, `?`, `#` and `;` that drive `urlparse`'s
splitting.  A configured hostname made of these survives `urlparse`
whole, as its path component. -/
def plainHostChar (c : Char) : Bool :=
  32 < c.toNat ∧ c.toNat < 127 ∧
    ¬ (c = ':' ∨ c = '/' ∨ c = '?' ∨ c = '#' ∨ c = ';')

/-- A small concrete catalog used by witnesses and counterexamples. -/
def prodA : Product :=
  { sku := "a", title := "A", description := "alpha", price := 50 }

/-- Second fixture product. -/
def prodB : Product :=
  { sku := "b", title := "B", description := "beta", price := 55 }

/-- A two-product, fully in-stock, never-viewed state. -/
def sAB : AppState :=
  { inventory := [("a", 1), ("b", 2)]
    products := [("a", prodA), ("b", prodB)]
    viewings := [] }

/-! ## Dict lemmas -/

theorem dget?_dset_self {α : Type} (d : List (String × α)) (k : String) (v : α) :
    dget? (dset d k v) k = some v := by
  induction d with
  | nil => simp [dset, dget?]
  | cons kv d ih =>
      obtain ⟨k1, v1⟩ := kv
      by_cases h : k1 = k
      · subst h; simp [dset, dget?]
      · simp [dset, dget?, h, ih]

theorem dget?_dset_ne {α : Type} (d : List (String × α)) (k key : String) (v : α)
    (h : key ≠ k) : dget? (dset d k v) key = dget? d key := by
  induction d with
  | nil => simp [dset, dget?, Ne.symm h]
  | cons kv d ih =>
      obtain ⟨k1, v1⟩ := kv
      by_cases h1 : k1 = k
      · subst h1
        simp [dset, dget?, Ne.symm h]
      · by_cases h2 : k1 = key
        · subst h2; simp [dset, dget?, h1]
        · simp [dset, dget?, h1, h2, ih]

theorem mem_dkeys_iff_isSome {α : Type} (d : List (String × α)) (k : String) :
    k ∈ dkeys d ↔ (dget? d k).isSome := by
  induction d with
  | nil => simp [dkeys, dget?]
  | cons kv d ih =>
      obtain ⟨k1, v1⟩ := kv
      by_cases h : k1 = k
      · subst h; simp [dkeys, dget?]
      · have hk : dkeys ((k1, v1) :: d) = k1 :: dkeys d := rfl
        rw [hk, List.mem_cons]
        simp only [dget?, if_neg h]
        rw [← ih]
        constructor
        · rintro (rfl | hh)
          · exact absurd rfl h
          · exact hh
        · exact Or.inr

theorem dget?_some_mem {α : Type} (d : List (String × α)) (k : String) (v : α)
    (h : dget? d k = some v) : (k, v) ∈ d := by
  induction d with
  | nil => simp [dget?] at h
  | cons kv d ih =>
      obtain ⟨k1, v1⟩ := kv
      by_cases h1 : k1 = k
      · subst h1
        simp [dget?] at h
        simp [h]
      · simp [dget?, h1] at h
        exact List.mem_cons_of_mem _ (ih h)

/-! ## Stable sort lemmas -/

theorem length_insertDesc (d : ProductDetails) (l : List ProductDetails) :
    (insertDesc d l).length = l.length + 1 := by
  induction l with
  | nil => rfl
  | cons e rest ih =>
      by_cases h : e.views ≤ d.views
      · simp [insertDesc, h]
      · simp [insertDesc, h, ih]

theorem length_pySortedByViewsDesc (l : List ProductDetails) :
    (pySortedByViewsDesc l).length = l.length := by
  induction l with
  | nil => rfl
  | cons d rest ih => simp [pySortedByViewsDesc, length_insertDesc, ih]

theorem mem_insertDesc (a d : ProductDetails) (l : List ProductDetails) :
    a ∈ insertDesc d l ↔ a = d ∨ a ∈ l := by
  induction l with
  | nil => simp [insertDesc]
  | cons e rest ih =>
      by_cases h : e.views ≤ d.views
      · simp [insertDesc, h]
      · simp [insertDesc, h, ih]
        tauto

theorem mem_pySortedByViewsDesc (a : ProductDetails) (l : List ProductDetails) :
    a ∈ pySortedByViewsDesc l ↔ a ∈ l := by
  induction l with
  | nil => simp [pySortedByViewsDesc]
  | cons d rest ih => simp [pySortedByViewsDesc, mem_insertDesc, ih]

theorem pairwise_insertDesc (d : ProductDetails) (l : List ProductDetails)
    (h : l.Pairwise (fun a b => b.views ≤ a.views)) :
    (insertDesc d l).Pairwise (fun a b => b.views ≤ a.views) := by
  induction l with
  | nil => simp [insertDesc]
  | cons e rest ih =>
      rw [List.pairwise_cons] at h
      by_cases hc : e.views ≤ d.views
      · rw [insertDesc, if_pos hc, List.pairwise_cons]
        constructor
        · intro x hx
          rcases List.mem_cons.mp hx with h1 | h1
          · exact h1 ▸ hc
          · exact le_trans (h.1 x h1) hc
        · exact List.pairwise_cons.mpr h
      · rw [insertDesc, if_neg hc, List.pairwise_cons]
        constructor
        · intro x hx
          rcases (mem_insertDesc x d rest).mp hx with h1 | h1
          · exact h1 ▸ le_of_lt (lt_of_not_le hc)
          · exact h.1 x h1
        · exact ih h.2

theorem pairwise_pySortedByViewsDesc (l : List ProductDetails) :
    (pySortedByViewsDesc l).Pairwise (fun a b => b.views ≤ a.views) := by
  induction l with
  | nil => simp [pySortedByViewsDesc]
  | cons d rest ih => exact pairwise_insertDesc d _ ih

/-! ## Slicing lemmas -/

theorem pySliceTo_length_le {α : Type} (l : List α) (stop : ℤ) (h : 0 ≤ stop) :
    (pySliceTo l stop).length ≤ stop.toNat := by
  rw [pySliceTo, if_pos h]
  simp [List.length_take]

theorem pySliceTo_zero {α : Type} (l : List α) : pySliceTo l 0 = [] := by
  simp [pySliceTo]

theorem pySliceTo_sublist {α : Type} (l : List α) (stop : ℤ) :
    (pySliceTo l stop).Sublist l := by
  rw [pySliceTo]
  split <;> exact List.take_sublist _ _

theorem pySliceTo_neg_length {α : Type} (l : List α) (stop : ℤ) (h : stop < 0) :
    (pySliceTo l stop).length = ((l.length : ℤ) + stop).toNat := by
  rw [pySliceTo, if_neg (by omega)]
  rw [List.length_take]
  omega

/-! ## Well-formed states and catalog lemmas -/

theorem WF_isSome (s : AppState) (hwf : WF s) (k : String)
    (h : k ∈ dkeys s.products) :
    (dget? s.products k).isSome ∧ (dget? s.inventory k).isSome := by
  refine ⟨(mem_dkeys_iff_isSome _ _).mp h, (mem_dkeys_iff_isSome _ _).mp ?_⟩
  rw [← hwf.1]; exact h

theorem get_product_details_ok (s : AppState) (sku : String) (d : ProductDetails)
    (h : get_product_details s sku = .ok d) :
    dget? s.products sku = some d.product ∧ dget? s.inventory sku = some d.inventory ∧
      d.url = url_for_view_product_details sku ∧ d.views = dgetD s.viewings sku 0 := by
  unfold get_product_details at h
  cases hp : dget? s.products sku with
  | none => rw [hp] at h; exact absurd h (by simp)
  | some p =>
      rw [hp] at h
      cases hi : dget? s.inventory sku with
      | none => rw [hi] at h; exact absurd h (by simp)
      | some inv =>
          rw [hi] at h
          simp only [Except.ok.injEq] at h
          subst h
          refine ⟨?_, ?_, rfl, rfl⟩ <;> simp [hp, hi]

theorem inStockDetails_ok (s : AppState) (entries : List (String × Product))
    (h : ∀ kp ∈ entries, (dget? s.products kp.1).isSome ∧ (dget? s.inventory kp.1).isSome) :
    ∃ l, inStockDetails s entries = .ok l ∧
      l.length = (entries.filter (inStockP s)).length ∧
      ∀ d ∈ l, ∃ sku, dget? s.inventory sku = some d.inventory ∧ 0 < d.inventory ∧
        get_product_details s sku = .ok d := by
  induction entries with
  | nil => exact ⟨[], rfl, rfl, by simp⟩
  | cons kp rest ih =>
      obtain ⟨sku, p⟩ := kp
      obtain ⟨hps, his⟩ := h (sku, p) (List.mem_cons_self _ _)
      obtain ⟨pp, hp0⟩ := Option.isSome_iff_exists.mp hps
      obtain ⟨inv, hi0⟩ := Option.isSome_iff_exists.mp his
      have hp : dget? s.products sku = some pp := hp0
      have hi : dget? s.inventory sku = some inv := hi0
      obtain ⟨l, hl, hlen, hmem⟩ := ih (fun kp hkp => h kp (List.mem_cons_of_mem _ hkp))
      by_cases hinv : 0 < inv
      · have hgpd : get_product_details s sku =
            .ok { product := pp, inventory := inv,
                  url := url_for_view_product_details sku,
                  views := dgetD s.viewings sku 0 } := by
          unfold get_product_details
          rw [hp, hi]
        refine ⟨{ product := pp, inventory := inv,
                  url := url_for_view_product_details sku,
                  views := dgetD s.viewings sku 0 } :: l, ?_, ?_, ?_⟩
        · simp only [inStockDetails, hi]
          rw [if_pos hinv, hgpd, hl]
          rfl
        · rw [List.filter_cons, if_pos (by simp [inStockP, hi, hinv])]
          simp [hlen]
        · intro d hd
          rcases List.mem_cons.mp hd with hd | hd
          · subst hd
            exact ⟨sku, hi, hinv, hgpd⟩
          · exact hmem d hd
      · refine ⟨l, ?_, ?_, hmem⟩
        · simp only [inStockDetails, hi]
          rw [if_neg hinv]
          exact hl
        · rw [List.filter_cons, if_neg (by simp [inStockP, hi, hinv])]
          exact hlen

/-! ## Route-level state lemmas -/

theorem step_keeps_products_inventory (s : AppState) (op : Op) :
    (step s op).products = s.products ∧ (step s op).inventory = s.inventory := by
  cases op <;> exact ⟨rfl, rfl⟩

theorem run_keeps_products_inventory (s : AppState) (ops : List Op) :
    (run s ops).products = s.products ∧ (run s ops).inventory = s.inventory := by
  induction ops generalizing s with
  | nil => exact ⟨rfl, rfl⟩
  | cons op ops ih =>
      obtain ⟨h1, h2⟩ := ih (step s op)
      obtain ⟨g1, g2⟩ := step_keeps_products_inventory s op
      exact ⟨h1.trans g1, h2.trans g2⟩

theorem views_view_product_details_self (s : AppState) (sku : String) :
    views (view_product_details s sku).1 sku = views s sku + 1 := by
  simp [view_product_details, views, dgetD, dget?_dset_self]

theorem views_view_product_details_other (s : AppState) (sku k : String)
    (h : k ≠ sku) :
    dget? (view_product_details s sku).1.viewings k = dget? s.viewings k := by
  simp [view_product_details, dget?_dset_ne _ _ _ _ h]

theorem views_step_mono (s : AppState) (op : Op) (sku : String) :
    views s sku ≤ views (step s op) sku := by
  cases op with
  | opHome => exact le_refl _
  | opApiPopularProducts a => exact le_refl _
  | opViewProductDetails sk =>
      show views s sku ≤ views (view_product_details s sk).1 sku
      by_cases h : sku = sk
      · subst h
        rw [views_view_product_details_self]
        omega
      · rw [views, views, dgetD, dgetD, views_view_product_details_other s sk sku h]
  | opApiProductDetails sk => exact le_refl _
  | opApiInventory => exact le_refl _
  | opApiInventorySku sk => exact le_refl _

theorem views_step_nonneg (s : AppState) (h : ∀ k, 0 ≤ views s k) (op : Op)
    (k : String) : 0 ≤ views (step s op) k :=
  le_trans (h k) (views_step_mono s op k)

theorem views_run_nonneg (s : AppState) (h : ∀ k, 0 ≤ views s k) (ops : List Op)
    (k : String) : 0 ≤ views (run s ops) k := by
  induction ops generalizing s with
  | nil => exact h k
  | cons op ops ih =>
      exact ih (step s op) (views_step_nonneg s h op)

/-! ## Rounding lemmas -/

theorem round_up_eq_ceil (x n : ℚ) (hx : 0 ≤ x) (hn : 0 < n) :
    round_up x n = (⌈x / n⌉ : ℚ) * n := by
  have hq : 0 ≤ x / n := div_nonneg hx hn.le
  have htr : decFloorDiv x n = ⌊x / n⌋ := by
    rw [decFloorDiv, decTrunc, if_pos hq]
  rw [round_up, decMod, htr]
  by_cases hmod : x - n * ((⌊x / n⌋ : ℤ) : ℚ) = 0
  · rw [if_neg (not_not.mpr hmod)]
    have hxn : x / n = ((⌊x / n⌋ : ℤ) : ℚ) := by
      have hn0 : n ≠ 0 := ne_of_gt hn
      rw [sub_eq_zero] at hmod
      rw [hmod]
      field_simp
    have hceq : ⌈x / n⌉ = ⌊x / n⌋ := by
      conv_lhs => rw [hxn]
      exact Int.ceil_intCast _
    rw [hceq]
    ring
  · rw [if_pos hmod]
    have hne : x / n ≠ ((⌊x / n⌋ : ℤ) : ℚ) := by
      intro hc
      apply hmod
      rw [sub_eq_zero]
      rw [← hc]
      field_simp
    have hceil : ⌈x / n⌉ = ⌊x / n⌋ + 1 := by
      have h1 : ⌈x / n⌉ ≤ ⌊x / n⌋ + 1 := by
        apply Int.ceil_le.mpr
        push_cast
        exact (Int.lt_floor_add_one _).le
      have h2 : ⌊x / n⌋ < ⌈x / n⌉ := by
        have hlt : ((⌊x / n⌋ : ℤ) : ℚ) < x / n :=
          lt_of_le_of_ne (Int.floor_le _) (Ne.symm hne)
        exact_mod_cast lt_of_lt_of_le hlt (Int.le_ceil (x / n))
      omega
    rw [hceil]
    push_cast
    ring

theorem round_up_ge (x n : ℚ) (hx : 0 ≤ x) (hn : 0 < n) : x ≤ round_up x n := by
  rw [round_up_eq_ceil x n hx hn]
  calc x = (x / n) * n := by field_simp
    _ ≤ (⌈x / n⌉ : ℚ) * n := mul_le_mul_of_nonneg_right (Int.le_ceil _) hn.le

theorem round_up_min (x n : ℚ) (hx : 0 ≤ x) (hn : 0 < n) (j : ℤ)
    (h : x ≤ (j : ℚ) * n) : round_up x n ≤ (j : ℚ) * n := by
  rw [round_up_eq_ceil x n hx hn]
  have hd : x / n ≤ (j : ℚ) := by
    rw [div_le_iff₀ hn]
    exact h
  have hce : ⌈x / n⌉ ≤ j := Int.ceil_le.mpr hd
  exact mul_le_mul_of_nonneg_right (by exact_mod_cast hce) hn.le

/-! ## Initialization lemmas -/

theorem dkeys_init_products (inv : List (String × Nat))
    (attrs : String → String × String × ℤ) :
    dkeys (init_products inv attrs) = dkeys inv := by
  induction inv with
  | nil => rfl
  | cons kv rest ih => exact congrArg (fun t => kv.1 :: t) ih

theorem views_initState (draws : List (String × Nat))
    (attrs : String → String × String × ℤ) (k : String) :
    views (initState draws attrs) k = 0 := by
  simp [initState, views, dgetD, dget?]

/-! ## Plain-host behaviour of the urlparse model -/

theorem dropWhile_eq_self_of_all {p : Char → Bool} (l : List Char)
    (h : ∀ c ∈ l, p c = false) : l.dropWhile p = l := by
  cases l with
  | nil => rfl
  | cons c cs =>
      rw [List.dropWhile_cons, if_neg (by simp [h c (List.mem_cons_self c cs)])]

theorem pyUrlsplit_plain_host (hn : String) (h : ∀ c ∈ hn.toList, plainHostChar c) :
    pyUrlsplit hn =
      .ok { scheme := "", netloc := "", path := hn, query := "", fragment := "" } := by
  have hchar : ∀ c ∈ hn.toList, 32 < c.toNat ∧ c.toNat < 127 ∧
      ¬ (c = ':' ∨ c = '/' ∨ c = '?' ∨ c = '#' ∨ c = ';') := by
    intro c hc
    have := h c hc
    simpa [plainHostChar] using this
  have hstrip : stripUnsafe hn = hn.toList := by
    rw [stripUnsafe]
    have hdrop : hn.toList.dropWhile c0ControlOrSpace = hn.toList := by
      apply dropWhile_eq_self_of_all
      intro c hc
      have := (hchar c hc).1
      simp [c0ControlOrSpace]
      omega
    rw [hdrop]
    apply List.filter_eq_self.mpr
    intro c hc
    have h32 := (hchar c hc).1
    simp [unsafeUrlByte]
    refine ⟨?_, ?_, ?_⟩ <;> (rintro rfl; exact absurd h32 (by decide))
  have hcolon : hn.toList.findIdx? (fun c => c = ':') = none := by
    apply List.findIdx?_eq_none_iff.mpr
    intro c hc
    simpa using fun hh : c = ':' => ((hchar c hc).2.2 (Or.inl hh))
  have hscheme : splitScheme hn.toList = ([], hn.toList) := by
    rw [splitScheme, hcolon]
  have hnet : splitNetlocStep hn.toList = ([], hn.toList) := by
    rw [splitNetlocStep, if_neg]
    intro heq
    have hmem : '/' ∈ hn.toList := by
      apply (List.take_sublist 2 hn.toList).subset
      rw [heq]
      exact List.mem_cons_self _ _
    exact (hchar '/' hmem).2.2 (Or.inr (Or.inl rfl))
  have hhash : hn.toList.findIdx? (fun c => c = '#') = none := by
    apply List.findIdx?_eq_none_iff.mpr
    intro c hc
    simpa using fun hh : c = '#' => ((hchar c hc).2.2 (Or.inr (Or.inr (Or.inr (Or.inl hh)))))
  have hquest : hn.toList.findIdx? (fun c => c = '?') = none := by
    apply List.findIdx?_eq_none_iff.mpr
    intro c hc
    simpa using fun hh : c = '?' => ((hchar c hc).2.2 (Or.inr (Or.inr (Or.inl hh))))
  have hh : splitOnFirst '#' hn.toList = (hn.toList, []) := by
    rw [splitOnFirst, hhash]
  have hq : splitOnFirst '?' hn.toList = (hn.toList, []) := by
    rw [splitOnFirst, hquest]
  simp only [pyUrlsplit, hstrip, hscheme, hnet, hh, hq]
  norm_num

theorem pyUrlparse_plain_host (hn : String) (h : ∀ c ∈ hn.toList, plainHostChar c) :
    pyUrlparse hn =
      .ok { scheme := "", netloc := "", path := hn, params := "", query := "",
            fragment := "" } := by
  rw [pyUrlparse, pyUrlsplit_plain_host hn h]
  have hsemi : ';' ∉ hn.toList := by
    intro hc
    have := h ';' hc
    exact absurd this (by decide)
  show Except.ok (paramsSplitOfSplit _) = _
  rw [paramsSplitOfSplit, if_neg (fun hc => hsemi hc.2)]

/-! ## Claim theorems -/

/-- C1, counterexample: the claim says each request to the JSON
product-detail route increments the product's View Count by exactly 1.
At the concrete state `sAB` with the catalogued id `"a"`, a request to
the JSON route leaves the view count at 0 instead of raising it to 1:
only the HTML handler performs the increment; `get_product_details` and
hence `api_product_details` only read `viewings`. -/
theorem json_detail_route_does_not_increment_views :
    views (api_product_details sAB "a").1 "a" = views sAB "a" ∧
    ¬ views (api_product_details sAB "a").1 "a" = views sAB "a" + 1 := by
  constructor
  · rfl
  · decide

/-- C1, amended: each request to the HTML product-detail route
increments the product's View Count by exactly 1 (so two HTML detail
retrievals increment it by exactly 2), while the JSON product-detail
route performs no increment at all — its handler leaves the state
untouched. -/
theorem detail_view_counting_amended (s : AppState) (sku : String)
    (_h : (dget? s.products sku).isSome) :
    views (view_product_details s sku).1 sku = views s sku + 1 ∧
    views (view_product_details (view_product_details s sku).1 sku).1 sku =
      views s sku + 2 ∧
    (api_product_details s sku).1 = s := by
  refine ⟨views_view_product_details_self s sku, ?_, rfl⟩
  rw [views_view_product_details_self, views_view_product_details_self]
  ring

/-- Witness for the amended C1 theorem at the fixture state. -/
theorem detail_view_counting_amended_witness :
    (dget? sAB.products "a").isSome ∧
    (views (view_product_details sAB "a").1 "a" = views sAB "a" + 1 ∧
     views (view_product_details (view_product_details sAB "a").1 "a").1 "a" =
       views sAB "a" + 2 ∧
     (api_product_details sAB "a").1 = sAB) :=
  ⟨by decide, detail_view_counting_amended sAB "a" (by decide)⟩

/-- C4: for an identifier absent from both catalog dicts,
`get_product_details` fails with `KeyError` on exactly that key — the
spec's NotFound kind, not any other failure kind — and the
single-inventory-entry route fails the same way. -/
theorem unknown_id_fails_with_notfound (s : AppState) (sku : String)
    (hp : dget? s.products sku = none) (hi : dget? s.inventory sku = none) :
    get_product_details s sku = .error (.keyError sku) ∧
    (api_inventory_sku s sku).2 = .error (.keyError sku) := by
  constructor
  · unfold get_product_details
    rw [hp]
  · show (match dget? s.inventory sku with
      | none => Except.error (PyErr.keyError sku)
      | some c => Except.ok c) = _
    rw [hi]

/-- Witness for C4 at the fixture state with the unknown id `"zzz"`. -/
theorem unknown_id_fails_with_notfound_witness :
    dget? sAB.products "zzz" = none ∧ dget? sAB.inventory "zzz" = none ∧
    (get_product_details sAB "zzz" = .error (.keyError "zzz") ∧
     (api_inventory_sku sAB "zzz").2 = .error (.keyError "zzz")) :=
  ⟨by decide, by decide,
   unknown_id_fails_with_notfound sAB "zzz" (by decide) (by decide)⟩

/-- C7: a key that does not parse as an integer makes `create_job` fail
with `ValueError` — the spec's InvalidArgument kind — and the list of
issued requests is empty: `int(key)` is evaluated while the URL
argument is built, before `requests.post` can run. -/
theorem create_job_nonint_key_no_network (m : Miniq) (net : Request → HttpResponse)
    (key data : String) (h : pyIntOfString key = none) :
    Miniq.create_job m net key data = ([], .error (.valueError key)) := by
  unfold Miniq.create_job
  rw [h]

/-- Witness for C7 with the key `"abc"` and an always-succeeding
network oracle. -/
theorem create_job_nonint_key_no_network_witness :
    pyIntOfString "abc" = none ∧
    Miniq.create_job { uri := "http://3000" }
      (fun _ => { status := 200, jsonBody := Except.ok Json.null }) "abc" "payload" =
      ([], .error (.valueError "abc")) :=
  ⟨by decide, create_job_nonint_key_no_network _ _ _ _ (by decide)⟩

/-- C8: starting from any generated initial state, after any sequence
of requests every view count is non-negative, and handling one more
request of any kind never decreases any view count. -/
theorem view_counts_nonneg_and_monotone (draws : List (String × Nat))
    (attrs : String → String × String × ℤ) (ops : List Op) (op : Op)
    (sku : String) :
    0 ≤ views (run (initState draws attrs) ops) sku ∧
    views (run (initState draws attrs) ops) sku ≤
      views (step (run (initState draws attrs) ops) op) sku :=
  ⟨views_run_nonneg _ (fun k => le_of_eq (views_initState draws attrs k).symm) ops sku,
   views_step_mono _ op sku⟩

/-- C9: in every state reachable from a generated initial state, the
key sequence of `products` equals the key sequence of `inventory`
(1:1 correspondence), and no exposed operation ever changes either
mapping. -/
theorem catalog_keys_bijection_and_immutable (draws : List (String × Nat))
    (attrs : String → String × String × ℤ) (ops : List Op) :
    dkeys (run (initState draws attrs) ops).products =
      dkeys (run (initState draws attrs) ops).inventory ∧
    (run (initState draws attrs) ops).products = (initState draws attrs).products ∧
    (run (initState draws attrs) ops).inventory = (initState draws attrs).inventory := by
  obtain ⟨h1, h2⟩ := run_keeps_products_inventory (initState draws attrs) ops
  refine ⟨?_, h1, h2⟩
  rw [h1, h2]
  exact dkeys_init_products _ attrs

/-- C10: for every sku — catalogued or not — the HTML detail route
increments the view count of exactly that sku by 1 (creating it at 1
when absent, since the default is 0), leaves every other view count and
both catalog dicts unchanged, and when the sku is unknown the handler
still fails with `KeyError` after the increment has happened. -/
theorem html_detail_route_frame_effect (s : AppState) (sku : String) :
    views (view_product_details s sku).1 sku = views s sku + 1 ∧
    (∀ k, k ≠ sku →
      dget? (view_product_details s sku).1.viewings k = dget? s.viewings k) ∧
    (view_product_details s sku).1.products = s.products ∧
    (view_product_details s sku).1.inventory = s.inventory ∧
    (dget? s.products sku = none →
      (view_product_details s sku).2 = .error (.keyError sku)) := by
  refine ⟨views_view_product_details_self s sku,
          views_view_product_details_other s sku, rfl, rfl, ?_⟩
  intro h
  have h2 : dget? (view_product_details s sku).1.products sku = none := h
  show get_product_details (view_product_details s sku).1 sku = _
  unfold get_product_details
  rw [h2]

/-- C2, counterexample: the claim says that when the configured string
does not parse with both scheme and host, the base URI is `"http://"`
followed by the entire configured string.  For the very string the app
uses, `'localhost:3000'`, CPython's `urlparse` finds scheme
`'localhost'` with empty netloc and path `'3000'`, so the constructor
produces `http://3000`, not `http://localhost:3000`. -/
theorem base_uri_localhost3000_counterexample :
    Miniq.init "localhost:3000" = .ok { uri := "http://3000" } ∧
    "http://3000" ≠ "http://" ++ "localhost:3000" := by
  constructor
  · rfl
  · decide

/-- C2, amended: when the configured string parses with both a scheme
and a host, the base URI is `scheme + "://" + host`; otherwise the base
URI is `"http://"` followed by the *path component* of the parse — this
equals the entire configured string when that string consists of
printable ASCII characters other than `:`, `/`, `?`, `#`, `;`, but not
in general (e.g. `'localhost:3000'` yields `http://3000`). -/
theorem base_uri_construction_amended (hn : String) (u : ParseResult) :
    (pyUrlparse hn = .ok u → u.scheme ≠ "" → u.netloc ≠ "" →
      Miniq.init hn = .ok { uri := u.scheme ++ "://" ++ u.netloc }) ∧
    ((∀ c ∈ hn.toList, plainHostChar c) →
      Miniq.init hn = .ok { uri := "http://" ++ hn }) := by
  constructor
  · intro hp hs hnl
    rw [Miniq.init, hp]
    show Except.ok (baseUriOfParse u) = _
    rw [baseUriOfParse, if_pos ⟨hs, hnl⟩]
  · intro hplain
    rw [Miniq.init, pyUrlparse_plain_host hn hplain]
    show Except.ok (baseUriOfParse _) = _
    rw [baseUriOfParse, if_neg (fun hc => hc.1 rfl)]

/-- Witness for the amended C2 theorem: a full URI keeps its scheme and
host, a plain hostname is adopted whole. -/
theorem base_uri_construction_amended_witness :
    Miniq.init "http://example.com" = .ok { uri := "http" ++ "://" ++ "example.com" } ∧
    Miniq.init "example.com" = .ok { uri := "http://" ++ "example.com" } :=
  ⟨(base_uri_construction_amended "http://example.com"
      { scheme := "http", netloc := "example.com", path := "", params := "",
        query := "", fragment := "" }).1 (by rfl) (by decide) (by decide),
   (base_uri_construction_amended "example.com"
      { scheme := "", netloc := "", path := "", params := "",
        query := "", fragment := "" }).2 (by decide)⟩

/-- C3, counterexample: the claim says every `limit ≤ 0` yields an
empty sequence.  At the fixture state with two in-stock products,
`get_popular_products(-1)` returns a one-element list: Python's slice
`[0:-1]` drops the last element instead of keeping none. -/
theorem popular_products_negative_limit_counterexample :
    (get_popular_products sAB (-1)).toOption.map List.length = some 1 ∧
    ¬ get_popular_products sAB (-1) = .ok [] := by
  constructor
  · decide
  · decide

/-- C3, amended: on a well-formed state, `get_popular_products 0`
returns an empty sequence without raising; a *negative* limit also does
not raise but in general returns a non-empty sequence — the slice
`[0:limit]` keeps the first `max(n + limit, 0)` of the `n` in-stock
products, dropping the last `|limit|`. -/
theorem popular_products_nonpositive_limit_amended (s : AppState) (limit : ℤ)
    (hwf : WF s) :
    get_popular_products s 0 = .ok [] ∧
    (limit < 0 → ∃ raw l, inStockDetails s s.products = .ok raw ∧
      get_popular_products s limit = .ok l ∧
      l.length = ((raw.length : ℤ) + limit).toNat) := by
  have hsome : ∀ kp ∈ s.products,
      (dget? s.products kp.1).isSome ∧ (dget? s.inventory kp.1).isSome := by
    intro kp hkp
    exact WF_isSome s hwf kp.1 (List.mem_map_of_mem Prod.fst hkp)
  obtain ⟨raw, hraw, _, _⟩ := inStockDetails_ok s s.products hsome
  constructor
  · rw [get_popular_products, hraw]
    show Except.ok (pySliceTo (pySortedByViewsDesc raw) 0) = _
    rw [pySliceTo_zero]
  · intro hneg
    refine ⟨raw, pySliceTo (pySortedByViewsDesc raw) limit, hraw, ?_, ?_⟩
    · rw [get_popular_products, hraw]
      rfl
    · rw [pySliceTo_neg_length _ _ hneg, length_pySortedByViewsDesc]

/-- Witness for the amended C3 theorem at the fixture state with
`limit = -1`. -/
theorem popular_products_nonpositive_limit_amended_witness :
    WF sAB ∧ (-1 : ℤ) < 0 ∧
    (get_popular_products sAB 0 = .ok [] ∧
     ((-1 : ℤ) < 0 → ∃ raw l, inStockDetails sAB sAB.products = .ok raw ∧
       get_popular_products sAB (-1) = .ok l ∧
       l.length = ((raw.length : ℤ) + (-1)).toNat)) :=
  ⟨by decide, by decide,
   popular_products_nonpositive_limit_amended sAB (-1) (by decide)⟩

/-- C5: on a well-formed state, a positive `limit` yields (without
raising) a list of at most `limit` product details, each of an in-stock
product (`Inventory Count > 0`, never 0) carrying that product's
current view count, in non-increasing order of view count; and the
popular-products routes leave the state — in particular every view
count — unchanged. -/
theorem popular_products_spec (s : AppState) (limit : ℤ) (hpos : 0 < limit)
    (hwf : WF s) :
    ∃ l, get_popular_products s limit = .ok l ∧
      l.length ≤ limit.toNat ∧
      (∀ d ∈ l, 0 < d.inventory ∧
        dget? s.inventory d.product.sku = some d.inventory ∧
        d.views = dgetD s.viewings d.product.sku 0) ∧
      l.Pairwise (fun a b => b.views ≤ a.views) ∧
      (view_home s).1 = s ∧ (∀ a, (api_popular_products s a).1 = s) := by
  have hsome : ∀ kp ∈ s.products,
      (dget? s.products kp.1).isSome ∧ (dget? s.inventory kp.1).isSome := by
    intro kp hkp
    exact WF_isSome s hwf kp.1 (List.mem_map_of_mem Prod.fst hkp)
  obtain ⟨raw, hraw, _, hmem⟩ := inStockDetails_ok s s.products hsome
  refine ⟨pySliceTo (pySortedByViewsDesc raw) limit, ?_, ?_, ?_, ?_, rfl, fun a => rfl⟩
  · rw [get_popular_products, hraw]
    rfl
  · exact pySliceTo_length_le _ limit hpos.le
  · intro d hd
    have hd2 : d ∈ pySortedByViewsDesc raw := (pySliceTo_sublist _ _).subset hd
    have hd3 : d ∈ raw := (mem_pySortedByViewsDesc d raw).mp hd2
    obtain ⟨sku, hinv, hpos2, hgpd⟩ := hmem d hd3
    obtain ⟨hpd, hid, _, hviews⟩ := get_product_details_ok s sku d hgpd
    have hsku : d.product.sku = sku := hwf.2 (sku, d.product) (dget?_some_mem _ _ _ hpd)
    refine ⟨hpos2, ?_, ?_⟩
    · rw [hsku]; exact hid
    · rw [hsku]; exact hviews
  · exact (pairwise_pySortedByViewsDesc raw).sublist (pySliceTo_sublist _ _)

/-- Witness for C5 at the fixture state with `limit = 1`. -/
theorem popular_products_spec_witness :
    (0 : ℤ) < 1 ∧ WF sAB ∧
    (∃ l, get_popular_products sAB 1 = .ok l ∧
      l.length ≤ (1 : ℤ).toNat ∧
      (∀ d ∈ l, 0 < d.inventory ∧
        dget? sAB.inventory d.product.sku = some d.inventory ∧
        d.views = dgetD sAB.viewings d.product.sku 0) ∧
      l.Pairwise (fun a b => b.views ≤ a.views) ∧
      (view_home sAB).1 = sAB ∧ (∀ a, (api_popular_products sAB a).1 = sAB)) :=
  ⟨by decide, by decide, popular_products_spec sAB 1 (by decide) (by decide)⟩

/-- C6: `round_up(x, n)` with positive arguments is the least multiple
of `n` that is ≥ `x` (namely `⌈x/n⌉ * n`), and consequently every
generated product — whose minor-unit draw lies in `randint(5000,
250000)` — has a strictly positive price that is an exact multiple of
the configured granularity 5. -/
theorem price_rounding_spec (x n : ℚ) (hx : 0 < x) (hn : 0 < n)
    (draws : List (String × Nat)) (attrs : String → String × String × ℤ)
    (hattrs : ∀ key, 5000 ≤ (attrs key).2.2 ∧ (attrs key).2.2 ≤ 250000) :
    (x ≤ round_up x n ∧ (∃ k : ℤ, round_up x n = (k : ℚ) * n) ∧
      ∀ j : ℤ, x ≤ (j : ℚ) * n → round_up x n ≤ (j : ℚ) * n) ∧
    (∀ kp ∈ (initState draws attrs).products,
      0 < kp.2.price ∧ ∃ k : ℤ, kp.2.price = (k : ℚ) * 5) := by
  have hgen : ∀ m : ℤ, 5000 ≤ m →
      0 < round_up ((m : ℚ) / 100) 5 ∧
      ∃ k : ℤ, round_up ((m : ℚ) / 100) 5 = (k : ℚ) * 5 := by
    intro m h1
    have hm0 : (0 : ℚ) < (m : ℚ) := by
      have : (0 : ℤ) < m := by omega
      exact_mod_cast this
    have hxpos : (0 : ℚ) < (m : ℚ) / 100 := by positivity
    constructor
    · exact lt_of_lt_of_le hxpos (round_up_ge _ _ hxpos.le (by norm_num))
    · exact ⟨⌈((m : ℚ) / 100) / 5⌉, round_up_eq_ceil _ _ hxpos.le (by norm_num)⟩
  constructor
  · exact ⟨round_up_ge x n hx.le hn,
      ⟨⌈x / n⌉, round_up_eq_ceil x n hx.le hn⟩,
      fun j hj => round_up_min x n hx.le hn j hj⟩
  · intro kp hkp
    have hkp2 : kp ∈ List.map (fun kv =>
        (kv.1, mkProduct kv.1 (attrs kv.1).1 (attrs kv.1).2.1 (attrs kv.1).2.2))
        (init_inventory draws) := hkp
    obtain ⟨kv, _, hkp3⟩ := List.mem_map.mp hkp2
    rw [← hkp3]
    exact hgen (attrs kv.1).2.2 (hattrs kv.1).1

/-- Witness for C6 at `x = 7`, `n = 5` and a one-product generation
with minor-unit draw 12345 (price 125 = 25 · 5). -/
theorem price_rounding_spec_witness :
    (0 : ℚ) < 7 ∧ (0 : ℚ) < 5 ∧
    (((7 : ℚ) ≤ round_up 7 5 ∧ (∃ k : ℤ, round_up 7 5 = (k : ℚ) * 5) ∧
      ∀ j : ℤ, (7 : ℚ) ≤ (j : ℚ) * 5 → round_up 7 5 ≤ (j : ℚ) * 5) ∧
     (∀ kp ∈ (initState [("a", 1)] (fun _ => ("t", "d", 12345))).products,
        0 < kp.2.price ∧ ∃ k : ℤ, kp.2.price = (k : ℚ) * 5)) :=
  ⟨by norm_num, by norm_num,
   price_rounding_spec 7 5 (by norm_num) (by norm_num) [("a", 1)]
     (fun _ => ("t", "d", 12345)) (fun _ => ⟨by norm_num, by norm_num⟩)⟩

end MiniqApp

